import Mathlib

/-!
# Verification of the keyword-consolidation core (`src/app.py`)

Shallow embedding of the two core components of the repository:

* `process_file` (record normalizer, `app.py` lines 5-56): decode a
  tab-separated byte stream (utf-16 first, utf-8 on decode failure after a
  `seek(0)`), select the nine quoted columns, rename them, strip the quote
  characters with Python `str.strip('"')`, and coerce `volume`/`position`
  with `pd.to_numeric(errors="coerce")` (unparseable becomes NaN, embedded
  here as `Option.none`).

* `cluster_keywords` (URL aggregator, `app.py` lines 58-114): sort by
  volume descending (NaN last), build the per-URL top-keyword dictionaries
  (`int(...)` raises on NaN), group by URL with pandas `groupby` (which
  sorts the group keys), derive the metrics, serialize the list columns
  (`int(v)` raises on NaN), and sort the groups by top keyword volume
  ascending.  Both functions catch every exception and return `None`,
  embedded as `Option.none`.

Embedding notes (kept next to the definitions they concern):

* pandas `sort_values` defaults to `kind="quicksort"` (numpy introsort),
  which guarantees no stability.  numpy runs a plain insertion sort on the
  small arrays appearing in every concrete example of this file, and
  insertion sort is stable, so the sorts are embedded as a stable insertion
  sort; theorems that would depend on tie order for large inputs are not
  claimed from this embedding.
* numbers are embedded as `Int` (volumes and positions in these exports are
  integral; `int(...)` is applied to every serialized volume by the source).
  Binary floating point representation issues of `round(..., 1)` are not
  modeled; no theorem below depends on `avgPositionTenths`.
-/

namespace AhrefApp

/-! ## Data model -/

/-- One normalized row, the shape produced by `process_file`
(`app.py` lines 26-48): renamed columns, quote-stripped strings,
`volume`/`position` coerced with `errors="coerce"` (`none` is NaN). -/
structure KeywordRecord where
  keyword : String
  volume : Option Int
  position : Option Int
  url : String
  branded : String
  «local» : String
  informational : String
  commercial : String
  transactional : String
deriving DecidableEq, Repr

/-- One row of the `result` frame returned by `cluster_keywords`
(`app.py` lines 95-105).  The three `List` fields are the per-group
column lists of `grouped` (lines 74-78, with the volumes already through
`int(...)`); the `...Text` fields are their newline-joined serializations
(lines 90-92), which is what the emitted frame actually carries. -/
structure UrlGroup where
  url : String
  topKeyword : String
  topKeywordVolume : Int
  avgPositionTenths : Option Int
  keywordCount : Nat
  totalVolume : Int
  keywords : List String
  positions : List (Option Int)
  volumes : List Int
  keywordsText : String
  volumesText : String
  positionsText : String
deriving DecidableEq, Repr

/-! ## Generic stable insertion sort

pandas `sort_values(ascending=False, na_position="last")` reverses the
array, argsorts ascending, and reverses again, so a stable kind yields a
stable descending sort.  numpy introsort degenerates to a stable insertion
sort below 16 elements; the embedding uses an insertion sort throughout. -/

/-- Insert `a` in front of the first element `b` with `le a b`. -/
def insertBy (le : α → α → Bool) (a : α) : List α → List α
  | [] => [a]
  | b :: bs => if le a b then a :: b :: bs else b :: insertBy le a bs

/-- Stable insertion sort: for `le` reflexive, an element coming earlier
in the input is inserted in front of every tie coming later. -/
def sortBy (le : α → α → Bool) : List α → List α
  | [] => []
  | a :: as => insertBy le a (sortBy le as)

/-! ## URL aggregator (`cluster_keywords`, lines 58-114) -/

/-- Comparison of `app.py` line 62,
`df.sort_values(by="volume", ascending=False)`: volume descending with
NaN sorted last (`na_position` defaults to `"last"`). -/
def volBefore (a b : KeywordRecord) : Bool :=
  match a.volume, b.volume with
  | some x, some y => decide (y ≤ x)
  | some _, none => true
  | none, some _ => false
  | none, none => true

/-- Line 62: `df_sorted = df.sort_values(by="volume", ascending=False)`. -/
def sortRecords (df : List KeywordRecord) : List KeywordRecord :=
  sortBy volBefore df

/-- First-appearance deduplication, the order contract of pandas
`Series.unique` (line 67, `df_sorted["url"].unique()`). -/
def dedupFirst : List String → List String
  | [] => []
  | u :: us => u :: (dedupFirst us).filter (fun v => v ≠ u)

/-- Line 67: the distinct urls of `df_sorted`, in order of first
appearance. -/
def uniqueUrls (rs : List KeywordRecord) : List String :=
  dedupFirst (rs.map (fun r => r.url))

/-- Lines 64-71: the `top_keywords` / `top_volumes` dictionaries, one
entry `(url, keyword, volume)` per distinct url.  `url_df.iloc[0]` is the
first row of `df_sorted` with that url; `if not url_df.empty` skips an
empty selection; `int(url_df.iloc[0]["volume"])` raises `ValueError` on
NaN, which the `except` at line 112 turns into `None` — embedded as the
whole computation returning `none`. -/
def topEntriesAux (sorted : List KeywordRecord) :
    List String → Option (List (String × String × Int))
  | [] => some []
  | u :: us =>
    match (sorted.filter (fun r => r.url == u)).head? with
    | none => topEntriesAux sorted us
    | some r =>
      match r.volume with
      | none => none
      | some v =>
        match topEntriesAux sorted us with
        | none => none
        | some es => some ((u, r.keyword, v) :: es)

/-- Lines 64-71 over the urls of line 67. -/
def topEntries (sorted : List KeywordRecord) : Option (List (String × String × Int)) :=
  topEntriesAux sorted (uniqueUrls sorted)

/-- Dictionary lookup used by lines 86-87
(`grouped["url"].map(top_keywords)` and `.map(top_volumes)`). -/
def lookupTop : List (String × String × Int) → String → Option (String × Int)
  | [], _ => none
  | e :: es, u => if e.1 == u then some (e.2.1, e.2.2) else lookupTop es u

/-- One row of `grouped` (lines 74-78): the per-url column lists, in the
order the rows have inside `df_sorted`. -/
structure GroupRow where
  url : String
  keywords : List String
  positions : List (Option Int)
  volumes : List (Option Int)
deriving DecidableEq, Repr

/-- Lexicographic strict order on character lists by code point;
Python compares strings exactly this way. -/
def charListLt : List Char → List Char → Bool
  | [], [] => false
  | [], _ :: _ => true
  | _ :: _, [] => false
  | a :: as, b :: bs =>
    if a.toNat < b.toNat then true
    else if b.toNat < a.toNat then false
    else charListLt as bs

/-- Python `<` on strings: code-point lexicographic. -/
def strLt (a b : String) : Bool := charListLt a.toList b.toList

/-- The total order `groupby(sort=True)` sorts its keys by. -/
def strLe (a b : String) : Bool := !(strLt b a)

/-- Lines 74-78: `df_sorted.groupby("url", as_index=False).agg(...)`.
`groupby` defaults to `sort=True`, so the group keys come out sorted
ascending; within each group the `df_sorted` row order is preserved. -/
def groupRows (sorted : List KeywordRecord) : List GroupRow :=
  (sortBy strLe (uniqueUrls sorted)).map (fun u =>
    { url := u
      keywords := (sorted.filter (fun r => r.url == u)).map (fun r => r.keyword)
      positions := (sorted.filter (fun r => r.url == u)).map (fun r => r.position)
      volumes := (sorted.filter (fun r => r.url == u)).map (fun r => r.volume) })

/-- `Option`-valued `List.mapM`, written as a plain recursion. -/
def optMapM (f : α → Option β) : List α → Option (List β)
  | [] => some []
  | a :: as =>
    match f a, optMapM f as with
    | some b, some bs => some (b :: bs)
    | _, _ => none

/-- Sum of an integer list (Python `sum`, line 82). -/
def sumInts (l : List Int) : Int := l.foldl (fun a b => a + b) 0

/-- `a / b` rounded half-to-even (Python `round`), for `b > 0`. -/
def divRoundHalfEven (a b : Int) : Int :=
  let f := Int.ediv a b
  let r := Int.emod a b
  if 2 * r < b then f
  else if b < 2 * r then f + 1
  else if f % 2 = 0 then f else f + 1

/-- Line 83, `round(sum(x)/len(x), 1)`, in tenths.  A NaN position makes
the float mean NaN (stored, not an error), embedded as `none`. -/
def avgTenths (ps : List (Option Int)) : Option Int :=
  match optMapM id ps with
  | none => none
  | some xs => some (divRoundHalfEven (10 * sumInts xs) (xs.length : Int))

/-- Newline join of lines 90-92. -/
def joinLines (l : List String) : String := String.intercalate "\n" l

/-- Line 91, `str(p)` on a position.  (pandas prints `3.0` when the
column dtype is float; the decimal suffix is not modeled and no theorem
depends on `positionsText`.) -/
def posStr : Option Int → String
  | some n => toString n
  | none => "nan"

/-- Lines 81-92 and 95-105 for one group: metric columns, the dictionary
lookups of lines 86-87, and the serialized list columns.  `int(v)` at
line 92 raises `ValueError` on a NaN volume, which the `except` at line
112 turns into `None` — embedded by this function returning `none`. -/
def mkUrlGroup (tops : List (String × String × Int)) (g : GroupRow) :
    Option UrlGroup :=
  match optMapM id g.volumes, lookupTop tops g.url with
  | some vols, some tk =>
    some
      { url := g.url
        topKeyword := tk.1
        topKeywordVolume := tk.2
        avgPositionTenths := avgTenths g.positions
        keywordCount := g.keywords.length
        totalVolume := sumInts vols
        keywords := g.keywords
        positions := g.positions
        volumes := vols
        keywordsText := joinLines g.keywords
        volumesText := joinLines (vols.map (fun v => toString v))
        positionsText := joinLines (g.positions.map posStr) }
  | _, _ => none

/-- Comparison of line 108,
`result.sort_values(by="top_keyword_volume", ascending=True)`. -/
def groupLe (a b : UrlGroup) : Bool :=
  decide (a.topKeywordVolume ≤ b.topKeywordVolume)

/-- Lines 64-110 of `cluster_keywords`, the part after the sort of line
62: dictionaries, grouping, metrics, serialization, final sort. -/
def clusterFromSorted (sorted : List KeywordRecord) : Option (List UrlGroup) :=
  match topEntries sorted with
  | none => none
  | some tops =>
    match optMapM (mkUrlGroup tops) (groupRows sorted) with
    | none => none
    | some rows => some (sortBy groupLe rows)

/-- `cluster_keywords` (lines 58-114): the whole body runs under
`try/except`; any exception is reported via `st.error` and `None` is
returned, embedded as `none`. -/
def clusterKeywords (df : List KeywordRecord) : Option (List UrlGroup) :=
  clusterFromSorted (sortRecords df)

/-! ### Mutation model for the aggregator

`cluster_keywords` receives the caller's frame `df`; the only operation
it ever applies to `df` itself is `df.sort_values(...)` at line 62, which
is called without `inplace` and therefore with the pandas default
`inplace=False`: the receiver is left untouched and a sorted copy is
returned.  Every later step (boolean-mask selection at line 68,
`groupby(...).agg(...)` at lines 74-78, the column assignments at lines
81-92, which write into `grouped` — a frame freshly created by `agg` —
the column selection at line 95 and the sort at line 108) builds new
frames from `df_sorted` and never writes back into `df`.  The embedding
makes this explicit by threading the caller-visible state. -/

/-- pandas `DataFrame.sort_values` as a state transformer on the
receiver: with `inplace=True` the receiver is replaced and `None` is
returned; with `inplace=False` (the default, used by the source) the
receiver is unchanged and the sorted copy is returned. -/
def sortValuesCall (df : List KeywordRecord) (inplace : Bool) :
    List KeywordRecord × Option (List KeywordRecord) :=
  if inplace then (sortRecords df, none) else (df, some (sortRecords df))

/-- `cluster_keywords` with the caller's frame threaded as explicit
state: first component is the input frame as left after the call, second
the returned result. -/
def clusterKeywordsTracked (df : List KeywordRecord) :
    List KeywordRecord × Option (List UrlGroup) :=
  let pr := sortValuesCall df false
  (pr.1, clusterFromSorted (pr.2.getD pr.1))

/-! ## Record normalizer (`process_file`, lines 5-56)

The byte-level decoders (`pd.read_csv` with `encoding="utf-16"` resp.
`"utf-8"`, `sep="\t"`, `quoting=3`) are external library behavior; they
are embedded as parameters mapping the bytes still ahead of the stream
position to a decode outcome.  `quoting=3` is `QUOTE_NONE`: fields keep
their literal quote characters, which is why the header names carry
quotes and line 44 strips them afterwards. -/

/-- A parsed tab-separated table: header names and row cells, all still
carrying their literal quote characters (`quoting=3`). -/
structure RawTable where
  header : List String
  rows : List (List String)
deriving DecidableEq, Repr

/-- Outcome of one `pd.read_csv` call: a table, a `UnicodeError` (the
only exception the inner `except` at line 16 catches), or any other
exception (which propagates to the outer `except` at line 52). -/
inductive DecodeResult
  | ok (t : RawTable)
  | unicodeErr
  | otherErr
deriving DecidableEq

/-- The two text encodings the source ever tries. -/
inductive Encoding
  | utf16
  | utf8
deriving DecidableEq, Repr

/-- The two byte-stream decoders, given the bytes from the current
stream position onward. -/
structure CsvReader where
  dec16 : List Nat → DecodeResult
  dec8 : List Nat → DecodeResult

/-- Errors reported by `process_file` via `st.error` before it returns
`None`.  `formatError` carries `df.columns.tolist()`, the columns that
were actually found, written out at line 55. -/
inductive LoadError
  | encodingError
  | parseError
  | formatError (found : List String)
deriving DecidableEq, Repr

/-- The nine required source columns (lines 26-28), exactly as quoted in
the source header. -/
def requiredCols : List String :=
  ["\"Keyword\"", "\"Volume\"", "\"Current position\"", "\"Current URL\"",
   "\"Branded\"", "\"Local\"", "\"Informational\"", "\"Commercial\"",
   "\"Transactional\""]

/-- Python `str.strip('"')` (line 44): remove every leading and every
trailing `"` character.  Note this is not a single layer: all boundary
quote characters go. -/
def stripQuotes (s : String) : String :=
  ((((s.toList.dropWhile (fun c => c == '"')).reverse.dropWhile
      (fun c => c == '"')).reverse)).asString

/-- `str.replace(",", "")` at line 47: drop every comma. -/
def removeCommas (s : String) : String :=
  (s.toList.filter (fun c => c != ',')).asString

/-- Value of a digit string. -/
def digitsToNat (l : List Char) : Nat :=
  l.foldl (fun n c => 10 * n + (c.toNat - Char.toNat '0')) 0

/-- `pd.to_numeric(..., errors="coerce")` (lines 47-48), restricted to
integer literals: an optional sign followed by digits parses, anything
else (for example `n/a` or the empty string) coerces to NaN = `none`.
(The library also accepts decimal and scientific literals; the volumes
and positions of these exports are integral and no claim depends on a
non-integer parse.) -/
def parseIntOpt (s : String) : Option Int :=
  match s.toList with
  | [] => none
  | '-' :: ds =>
    if ds ≠ [] ∧ ds.all (fun c => c.isDigit)
    then some (-(digitsToNat ds : Int)) else none
  | ds =>
    if ds.all (fun c => c.isDigit)
    then some ((digitsToNat ds : Int)) else none

/-- Cell of `row` under column name `c` of the header. -/
def cellAt (t : RawTable) (row : List String) (c : String) : String :=
  match t.header.findIdx? (fun h => h == c) with
  | some i => row.getD i ""
  | none => ""

/-- Lines 26-48 for one row: select the nine quoted columns, rename,
strip the quote characters from every (object-typed) cell, then coerce
`volume` (commas removed first) and `position`. -/
def mkRecord (t : RawTable) (row : List String) : KeywordRecord :=
  { keyword := stripQuotes (cellAt t row "\"Keyword\"")
    volume := parseIntOpt (removeCommas (stripQuotes (cellAt t row "\"Volume\"")))
    position := parseIntOpt (stripQuotes (cellAt t row "\"Current position\""))
    url := stripQuotes (cellAt t row "\"Current URL\"")
    branded := stripQuotes (cellAt t row "\"Branded\"")
    «local» := stripQuotes (cellAt t row "\"Local\"")
    informational := stripQuotes (cellAt t row "\"Informational\"")
    commercial := stripQuotes (cellAt t row "\"Commercial\"")
    transactional := stripQuotes (cellAt t row "\"Transactional\"") }

/-- Lines 26-50 on a parsed table: `df[[...]]` raises `KeyError` when a
required column is absent; the outer `except` then reports the message
and writes the columns that were actually found (line 55). -/
def normalizeTable (t : RawTable) : Except LoadError (List KeywordRecord) :=
  if ∀ c ∈ requiredCols, c ∈ t.header
  then Except.ok (t.rows.map (mkRecord t))
  else Except.error (LoadError.formatError t.header)

/-- One `pd.read_csv` call at stream position `pos`: the decoder sees
the bytes from `pos` on.  On success the stream is consumed to the end;
on failure the position is wherever reading stopped, a value the source
never relies on, embedded as the unconstrained parameter `failPos`. -/
def readCsvAt (dec : List Nat → DecodeResult) (content : List Nat)
    (pos failPos : Nat) : DecodeResult × Nat :=
  match dec (content.drop pos) with
  | DecodeResult.ok t => (DecodeResult.ok t, content.length)
  | r => (r, failPos)

/-- Result of `process_file` together with the decode attempts made, in
order. -/
structure LoadOutcome where
  result : Except LoadError (List KeywordRecord)
  attempts : List Encoding

/-- `process_file` (lines 5-56): try utf-16 from the start; on
`UnicodeError`, `seek(0)` and try utf-8 from the start; any other
failure falls to the outer `except`, which reports and returns `None`.
A successful parse continues into column selection and cleaning. -/
def processFile (R : CsvReader) (content : List Nat) (failPos : Nat) :
    LoadOutcome :=
  match readCsvAt R.dec16 content 0 failPos with
  | (DecodeResult.ok t, _) =>
    { result := normalizeTable t, attempts := [Encoding.utf16] }
  | (DecodeResult.unicodeErr, _) =>
    -- `uploaded_file.seek(0)` (line 17): rewind before the second attempt
    let pos := 0
    match readCsvAt R.dec8 content pos failPos with
    | (DecodeResult.ok t, _) =>
      { result := normalizeTable t, attempts := [Encoding.utf16, Encoding.utf8] }
    | (DecodeResult.unicodeErr, _) =>
      { result := Except.error LoadError.encodingError
        attempts := [Encoding.utf16, Encoding.utf8] }
    | (DecodeResult.otherErr, _) =>
      { result := Except.error LoadError.parseError
        attempts := [Encoding.utf16, Encoding.utf8] }
  | (DecodeResult.otherErr, _) =>
    { result := Except.error LoadError.parseError, attempts := [Encoding.utf16] }

/-- `main` (lines 194-198): aggregation runs only when `process_file`
returned a frame (`if df is not None`). -/
def runPipeline (R : CsvReader) (content : List Nat) (failPos : Nat) :
    Option (List UrlGroup) :=
  match (processFile R content failPos).result with
  | Except.error _ => none
  | Except.ok recs => clusterKeywords recs

/-! ## Concrete inputs and outputs used below -/

/-- Scenario A of the specification: rows
`("shoes", 1000, 3, "/a"), ("sneakers", 500, 5, "/a"),
("boots", 2000, 1, "/b")`. -/
def exA : List KeywordRecord :=
  [ { keyword := "shoes", volume := some 1000, position := some 3, url := "/a",
      branded := "0", «local» := "0", informational := "0", commercial := "0",
      transactional := "0" },
    { keyword := "sneakers", volume := some 500, position := some 5, url := "/a",
      branded := "0", «local» := "0", informational := "0", commercial := "0",
      transactional := "0" },
    { keyword := "boots", volume := some 2000, position := some 1, url := "/b",
      branded := "0", «local» := "0", informational := "0", commercial := "0",
      transactional := "0" } ]

/-- The `/a` output group of Scenario A. -/
def gA : UrlGroup :=
  { url := "/a", topKeyword := "shoes", topKeywordVolume := 1000,
    avgPositionTenths := some 40, keywordCount := 2, totalVolume := 1500,
    keywords := ["shoes", "sneakers"], positions := [some 3, some 5],
    volumes := [1000, 500], keywordsText := "shoes\nsneakers",
    volumesText := "1000\n500", positionsText := "3\n5" }

/-- The `/b` output group of Scenario A. -/
def gB : UrlGroup :=
  { url := "/b", topKeyword := "boots", topKeywordVolume := 2000,
    avgPositionTenths := some 10, keywordCount := 1, totalVolume := 2000,
    keywords := ["boots"], positions := [some 1],
    volumes := [2000], keywordsText := "boots",
    volumesText := "2000", positionsText := "1" }

/-- The aggregated output of Scenario A, lowest top volume first. -/
def gsA : List UrlGroup := [gA, gB]

/-- Two records with equal volume and distinct urls; the url first
encountered in `df_sorted` (`"/b"`) is lexicographically after the
other. -/
def rsC2 : List KeywordRecord :=
  [ { keyword := "kb", volume := some 100, position := some 1, url := "/b",
      branded := "0", «local» := "0", informational := "0", commercial := "0",
      transactional := "0" },
    { keyword := "ka", volume := some 100, position := some 2, url := "/a",
      branded := "0", «local» := "0", informational := "0", commercial := "0",
      transactional := "0" } ]

/-- The aggregated output for `rsC2`: group keys come out of `groupby`
sorted, and the final tie at top volume 100 keeps that order. -/
def gsC2 : List UrlGroup :=
  [ { url := "/a", topKeyword := "ka", topKeywordVolume := 100,
      avgPositionTenths := some 20, keywordCount := 1, totalVolume := 100,
      keywords := ["ka"], positions := [some 2], volumes := [100],
      keywordsText := "ka", volumesText := "100", positionsText := "2" },
    { url := "/b", topKeyword := "kb", topKeywordVolume := 100,
      avgPositionTenths := some 10, keywordCount := 1, totalVolume := 100,
      keywords := ["kb"], positions := [some 1], volumes := [100],
      keywordsText := "kb", volumesText := "100", positionsText := "1" } ]

/-- A record whose volume text was unparseable: `volume` is NaN after
`pd.to_numeric(..., errors="coerce")`. -/
def recNaVol : KeywordRecord :=
  { keyword := "navol", volume := none, position := some 2, url := "/u",
    branded := "0", «local» := "0", informational := "0", commercial := "0",
    transactional := "0" }

/-- A two-record set for one url, the second record with a NaN volume
(source text such as `n/a`). -/
def exC1 : List KeywordRecord :=
  [ { keyword := "shoes", volume := some 100, position := some 1, url := "/u",
      branded := "0", «local» := "0", informational := "0", commercial := "0",
      transactional := "0" },
    recNaVol ]

/-- A parsed table whose keyword cell carries a doubled quote layer. -/
def tableC6 : RawTable :=
  { header := requiredCols,
    rows := [["\"\"x\"\"", "\"100\"", "\"1\"", "\"/u\"", "\"0\"", "\"0\"",
              "\"0\"", "\"0\"", "\"0\""]] }

/-- A reader whose utf-16 decode succeeds with `tableC6`. -/
def RC6 : CsvReader :=
  { dec16 := fun _ => DecodeResult.ok tableC6
    dec8 := fun _ => DecodeResult.unicodeErr }

/-- The record the normalizer produces from the row of `tableC6`. -/
def recC6 : KeywordRecord :=
  { keyword := "x", volume := some 100, position := some 1, url := "/u",
    branded := "0", «local» := "0", informational := "0", commercial := "0",
    transactional := "0" }

/-- A reader for which both decode attempts fail with a decode error. -/
def RC7 : CsvReader :=
  { dec16 := fun _ => DecodeResult.unicodeErr
    dec8 := fun _ => DecodeResult.unicodeErr }

/-- A parsed table missing the `"Current URL"` column (and others). -/
def tableC8 : RawTable :=
  { header := ["\"Keyword\"", "\"Volume\""], rows := [] }

/-- A reader whose utf-16 decode succeeds with `tableC8`. -/
def RC8 : CsvReader :=
  { dec16 := fun _ => DecodeResult.ok tableC8
    dec8 := fun _ => DecodeResult.unicodeErr }

/-- Maximum of an integer list (none on the empty list). -/
def maxInt : List Int → Option Int
  | [] => none
  | a :: as => some (as.foldl max a)

/-! ## Lemmas about the stable insertion sort -/

theorem insertBy_perm (le : α → α → Bool) (a : α) (l : List α) :
    List.Perm (insertBy le a l) (a :: l) := by
  induction l with
  | nil => exact List.Perm.refl _
  | cons b bs ih =>
    unfold insertBy
    by_cases h : le a b
    · simp [h]
    · simp only [h]
      rw [if_neg (by simp [h])]
      exact (ih.cons b).trans (List.Perm.swap a b bs)

theorem sortBy_perm (le : α → α → Bool) (l : List α) : List.Perm (sortBy le l) l := by
  induction l with
  | nil => exact List.Perm.refl _
  | cons a as ih => exact (insertBy_perm le a (sortBy le as)).trans (ih.cons a)

theorem mem_sortBy {le : α → α → Bool} {l : List α} {a : α} :
    a ∈ sortBy le l ↔ a ∈ l :=
  (sortBy_perm le l).mem_iff

theorem mem_insertBy {le : α → α → Bool} {l : List α} {a x : α} :
    x ∈ insertBy le a l ↔ x = a ∨ x ∈ l := by
  rw [(insertBy_perm le a l).mem_iff, List.mem_cons]

/-- Stability refinement: sorting with a total transitive `le` yields a
list pairwise ordered by `le`, and elements the comparison cannot
separate keep any pairwise relation `Q` they had in the input. -/
theorem insertBy_pairwise (le : α → α → Bool) (Q : α → α → Prop)
    (total : ∀ a b, le a b = false → le b a = true)
    (trans : ∀ a b c, le a b = true → le b c = true → le a c = true)
    (a : α) (l : List α)
    (hl : l.Pairwise (fun x y => le x y = true ∧ (le y x = true → Q x y)))
    (ha : ∀ x ∈ l, Q a x) :
    (insertBy le a l).Pairwise
      (fun x y => le x y = true ∧ (le y x = true → Q x y)) := by
  induction l with
  | nil => exact List.pairwise_singleton _ a
  | cons b bs ih =>
    rcases List.pairwise_cons.mp hl with ⟨hb, hbs⟩
    unfold insertBy
    by_cases h : le a b
    · simp only [h, if_true]
      refine List.pairwise_cons.mpr ⟨?_, hl⟩
      intro x hx
      rcases List.mem_cons.mp hx with rfl | hx
      · exact ⟨h, fun _ => ha x (List.mem_cons_self _ _)⟩
      · exact ⟨trans a b x h (hb x hx).1, fun _ => ha x (List.mem_cons_of_mem _ hx)⟩
    · have hba : le b a = true := total a b (by simpa using h)
      rw [if_neg h]
      refine List.pairwise_cons.mpr ⟨?_, ?_⟩
      · intro x hx
        rcases mem_insertBy.mp hx with rfl | hx
        · exact ⟨hba, fun hab => absurd hab (by simpa using h)⟩
        · exact hb x hx
      · exact ih hbs (fun x hx => ha x (List.mem_cons_of_mem _ hx))

theorem sortBy_pairwise (le : α → α → Bool) (Q : α → α → Prop)
    (total : ∀ a b, le a b = false → le b a = true)
    (trans : ∀ a b c, le a b = true → le b c = true → le a c = true)
    (l : List α) (hl : l.Pairwise Q) :
    (sortBy le l).Pairwise
      (fun x y => le x y = true ∧ (le y x = true → Q x y)) := by
  induction l with
  | nil => exact List.Pairwise.nil
  | cons a as ih =>
    rcases List.pairwise_cons.mp hl with ⟨ha, has⟩
    exact insertBy_pairwise le Q total trans a (sortBy le as) (ih has)
      (fun x hx => ha x (mem_sortBy.mp hx))

theorem sortBy_sorted (le : α → α → Bool)
    (total : ∀ a b, le a b = false → le b a = true)
    (trans : ∀ a b c, le a b = true → le b c = true → le a c = true)
    (l : List α) :
    (sortBy le l).Pairwise (fun x y => le x y = true) := by
  have h := sortBy_pairwise le (fun _ _ => True) total trans l
    (List.Pairwise.imp (fun _ => trivial)
      (List.pairwise_of_forall (fun _ _ => trivial) (l := l)))
  exact h.imp (fun h => h.1)

/-! ## Lemmas about the comparisons used by the source -/

theorem volBefore_total (a b : KeywordRecord) (h : volBefore a b = false) :
    volBefore b a = true := by
  unfold volBefore at *
  cases ha : a.volume <;> cases hb : b.volume <;> rw [ha, hb] at h <;> simp_all
  omega

theorem volBefore_trans (a b c : KeywordRecord) (hab : volBefore a b = true)
    (hbc : volBefore b c = true) : volBefore a c = true := by
  unfold volBefore at *
  cases ha : a.volume <;> cases hb : b.volume <;> cases hc : c.volume <;>
    rw [ha, hb] at hab <;> rw [hb, hc] at hbc <;> simp_all
  omega

theorem char_eq_of_toNat_eq {a b : Char} (h : a.toNat = b.toNat) : a = b :=
  Char.ext (UInt32.ext h)

theorem string_toList_inj {a b : String} (h : a.toList = b.toList) : a = b := by
  cases a
  cases b
  exact congrArg String.mk h

theorem charListLt_irrefl (as : List Char) : charListLt as as = false := by
  induction as with
  | nil => rfl
  | cons a as ih => simp [charListLt, ih]

theorem charListLt_trans {as bs cs : List Char}
    (h1 : charListLt as bs = true) (h2 : charListLt bs cs = true) :
    charListLt as cs = true := by
  induction as generalizing bs cs with
  | nil =>
    cases bs with
    | nil => cases h1
    | cons b bs' =>
      cases cs with
      | nil => cases h2
      | cons c cs' => rfl
  | cons a as' ih =>
    cases bs with
    | nil => cases h1
    | cons b bs' =>
      cases cs with
      | nil => cases h2
      | cons c cs' =>
        by_cases hab : a.toNat < b.toNat
        · by_cases hbc : b.toNat < c.toNat
          · simp [charListLt, show a.toNat < c.toNat by omega]
          · by_cases hcb : c.toNat < b.toNat
            · simp [charListLt, hbc, hcb] at h2
            · simp [charListLt, show a.toNat < c.toNat by omega]
        · by_cases hba : b.toNat < a.toNat
          · simp [charListLt, hab, hba] at h1
          · have h1' : charListLt as' bs' = true := by
              simpa [charListLt, hab, hba] using h1
            by_cases hbc : b.toNat < c.toNat
            · simp [charListLt, show a.toNat < c.toNat by omega]
            · by_cases hcb : c.toNat < b.toNat
              · simp [charListLt, hbc, hcb] at h2
              · have h2' : charListLt bs' cs' = true := by
                  simpa [charListLt, hbc, hcb] using h2
                simp [charListLt, show ¬(a.toNat < c.toNat) by omega,
                  show ¬(c.toNat < a.toNat) by omega, ih h1' h2']

theorem charListLt_asymm {as bs : List Char}
    (h : charListLt as bs = true) : charListLt bs as = false := by
  cases hx : charListLt bs as
  · rfl
  · have hself := charListLt_trans h hx
    rw [charListLt_irrefl] at hself
    cases hself

theorem charListLt_eq_of_not {as bs : List Char}
    (h1 : charListLt as bs = false) (h2 : charListLt bs as = false) :
    as = bs := by
  induction as generalizing bs with
  | nil =>
    cases bs with
    | nil => rfl
    | cons b bs' => cases h1
  | cons a as' ih =>
    cases bs with
    | nil => cases h2
    | cons b bs' =>
      by_cases hab : a.toNat < b.toNat
      · simp [charListLt, hab] at h1
      · by_cases hba : b.toNat < a.toNat
        · simp [charListLt, hba] at h2
        · have hchar : a = b := char_eq_of_toNat_eq (by omega)
          have h1' : charListLt as' bs' = false := by
            simpa [charListLt, hab, hba] using h1
          have h2' : charListLt bs' as' = false := by
            simpa [charListLt, hab, hba] using h2
          rw [hchar, ih h1' h2']

theorem strLe_total (a b : String) (h : strLe a b = false) : strLe b a = true := by
  unfold strLe at *
  have hba : strLt b a = true := by
    cases hx : strLt b a
    · rw [hx] at h
      cases h
    · rfl
  unfold strLt at *
  rw [charListLt_asymm hba]
  rfl

theorem strLe_trans (a b c : String) (hab : strLe a b = true)
    (hbc : strLe b c = true) : strLe a c = true := by
  unfold strLe strLt at *
  have hba : charListLt b.toList a.toList = false := by
    cases hx : charListLt b.toList a.toList
    · rfl
    · rw [hx] at hab
      cases hab
  have hcb : charListLt c.toList b.toList = false := by
    cases hx : charListLt c.toList b.toList
    · rfl
    · rw [hx] at hbc
      cases hbc
  have hca : charListLt c.toList a.toList = false := by
    cases hca : charListLt c.toList a.toList
    · rfl
    · cases hbc' : charListLt b.toList c.toList
      · have hlist : b.toList = c.toList := charListLt_eq_of_not hbc' hcb
        rw [← hlist] at hca
        rw [hca] at hba
        cases hba
      · have := charListLt_trans hbc' hca
        rw [this] at hba
        cases hba
  rw [hca]
  rfl

theorem groupLe_total (a b : UrlGroup) (h : groupLe a b = false) :
    groupLe b a = true := by
  unfold groupLe at *
  simp only [decide_eq_false_iff_not] at h
  simp
  omega

theorem groupLe_trans (a b c : UrlGroup) (hab : groupLe a b = true)
    (hbc : groupLe b c = true) : groupLe a c = true := by
  unfold groupLe at *
  simp only [decide_eq_true_eq] at *
  omega

/-! ## Lemmas about `optMapM` -/

theorem optMapM_eq_none {f : α → Option β} {l : List α} {a : α}
    (ha : a ∈ l) (hfa : f a = none) : optMapM f l = none := by
  induction l with
  | nil => cases ha
  | cons b bs ih =>
    rcases List.mem_cons.mp ha with rfl | ha
    · cases h2 : optMapM f bs <;> simp [optMapM, hfa, h2]
    · cases hfb : f b <;> simp [optMapM, hfb, ih ha]

theorem optMapM_some_forall₂ {f : α → Option β} {l : List α} {l' : List β}
    (h : optMapM f l = some l') :
    List.Forall₂ (fun a b => f a = some b) l l' := by
  induction l generalizing l' with
  | nil =>
    simp only [optMapM] at h
    cases h
    exact List.Forall₂.nil
  | cons a as ih =>
    simp only [optMapM] at h
    cases hfa : f a <;> rw [hfa] at h
    · cases h
    · cases hrest : optMapM f as <;> rw [hrest] at h
      · cases h
      · cases h
        exact List.Forall₂.cons hfa (ih hrest)

theorem forall₂_mem_right {R : α → β → Prop} {l : List α} {l' : List β}
    (h : List.Forall₂ R l l') {b : β} (hb : b ∈ l') : ∃ a ∈ l, R a b := by
  induction h with
  | nil => cases hb
  | cons hab htail ih =>
    rcases List.mem_cons.mp hb with rfl | hb
    · exact ⟨_, List.mem_cons_self _ _, hab⟩
    · rcases ih hb with ⟨a, hal, har⟩
      exact ⟨a, List.mem_cons_of_mem _ hal, har⟩

theorem forall₂_map_sum {R : α → β → Prop} {l : List α} {l' : List β}
    (h : List.Forall₂ R l l') (m : α → Nat) (m' : β → Nat)
    (hm : ∀ a b, R a b → m a = m' b) :
    (l.map m).sum = (l'.map m').sum := by
  induction h with
  | nil => rfl
  | cons hab htail ih => simp [hm _ _ hab, ih]

theorem forall₂_pairwise {R : α → β → Prop} {l : List α} {l' : List β}
    {Q : α → α → Prop} {Q' : β → β → Prop}
    (h : List.Forall₂ R l l') (hl : l.Pairwise Q)
    (himp : ∀ a b a' b', R a b → R a' b' → Q a a' → Q' b b') :
    l'.Pairwise Q' := by
  induction h with
  | nil => exact List.Pairwise.nil
  | cons hab htail ih =>
    rcases List.pairwise_cons.mp hl with ⟨hhead, htl⟩
    refine List.pairwise_cons.mpr ⟨?_, ih htl⟩
    intro y hy
    rcases forall₂_mem_right htail hy with ⟨x, hxl, hxy⟩
    exact himp _ _ _ _ hab hxy (hhead x hxl)

theorem forall₂_id_some {vols : List (Option Int)} {xs : List Int}
    (h : List.Forall₂ (fun a b => id a = some b) vols xs) :
    vols = xs.map some := by
  induction h with
  | nil => rfl
  | cons hab htail ih =>
    simp only [id_eq] at hab
    simp [hab, ih]

theorem optMapM_id_some {vols : List (Option Int)} {xs : List Int}
    (h : optMapM id vols = some xs) : vols = xs.map some :=
  forall₂_id_some (optMapM_some_forall₂ h)

/-! ## Lemmas about `dedupFirst` and `uniqueUrls` -/

theorem mem_dedupFirst {u : String} {l : List String} :
    u ∈ dedupFirst l ↔ u ∈ l := by
  induction l with
  | nil => simp [dedupFirst]
  | cons v vs ih =>
    by_cases h : u = v
    · subst h
      simp [dedupFirst]
    · simp [dedupFirst, List.mem_filter, h, ih]

theorem nodup_dedupFirst (l : List String) : (dedupFirst l).Nodup := by
  induction l with
  | nil => exact List.Pairwise.nil
  | cons v vs ih =>
    refine List.pairwise_cons.mpr ⟨?_, List.Nodup.filter _ ih⟩
    intro x hx
    have h2 := (List.mem_filter.mp hx).2
    intro hvx
    have h3 : ¬(x = v) := by simpa using h2
    exact h3 hvx.symm

theorem url_mem_uniqueUrls {r : KeywordRecord} {rs : List KeywordRecord}
    (h : r ∈ rs) : r.url ∈ uniqueUrls rs :=
  mem_dedupFirst.mpr (List.mem_map_of_mem _ h)

theorem nodup_uniqueUrls (rs : List KeywordRecord) : (uniqueUrls rs).Nodup :=
  nodup_dedupFirst _

/-! ## The grouping counts partition the records -/

theorem sum_map_add (f g : α → Nat) (l : List α) :
    (l.map (fun x => f x + g x)).sum = (l.map f).sum + (l.map g).sum := by
  induction l with
  | nil => rfl
  | cons a as ih =>
    simp only [List.map_cons, List.sum_cons, ih]
    omega

theorem sum_indicator_zero {x : String} {us : List String} (hx : x ∉ us) :
    (us.map (fun u => if x = u then (1 : Nat) else 0)).sum = 0 := by
  induction us with
  | nil => rfl
  | cons u us' ih =>
    have hxu : ¬(x = u) := fun h => hx (h ▸ List.mem_cons_self u us')
    have hx' : x ∉ us' := fun h => hx (List.mem_cons_of_mem _ h)
    simp [hxu, ih hx']

theorem sum_indicator_one {x : String} {us : List String} (hn : us.Nodup)
    (hx : x ∈ us) :
    (us.map (fun u => if x = u then (1 : Nat) else 0)).sum = 1 := by
  induction us with
  | nil => cases hx
  | cons u us' ih =>
    rcases List.pairwise_cons.mp hn with ⟨hu, hn'⟩
    rcases List.mem_cons.mp hx with rfl | hx'
    · have hxn : x ∉ us' := fun h => (hu x h) rfl
      simp [sum_indicator_zero hxn]
    · have hxu : ¬(x = u) := fun h => (hu x hx') h.symm
      simp [hxu, ih hn' hx']

theorem length_eq_sum_filter_lengths (rs : List KeywordRecord)
    (us : List String) (hn : us.Nodup) (hc : ∀ r ∈ rs, r.url ∈ us) :
    (us.map (fun u => (rs.filter (fun r => r.url == u)).length)).sum
      = rs.length := by
  induction rs with
  | nil => simp
  | cons r rs' ih =>
    have hsplit : ∀ u, ((r :: rs').filter (fun x => x.url == u)).length
        = (if r.url = u then (1 : Nat) else 0)
          + (rs'.filter (fun x => x.url == u)).length := by
      intro u
      by_cases h : r.url = u
      · simp [List.filter_cons, h]
        omega
      · simp [List.filter_cons, h]
    rw [List.map_congr_left (fun u _ => hsplit u), sum_map_add,
      sum_indicator_one hn (hc r (List.mem_cons_self _ _)),
      ih (fun x hx => hc x (List.mem_cons_of_mem _ hx))]
    rw [List.length_cons]
    omega

/-! ## Structural lemmas about the aggregator -/

theorem sortRecords_pairwise (df : List KeywordRecord) :
    (sortRecords df).Pairwise (fun a b => volBefore a b = true) :=
  sortBy_sorted volBefore volBefore_total volBefore_trans df

theorem clusterKeywords_eq_some {rs : List KeywordRecord}
    {gs : List UrlGroup} (h : clusterKeywords rs = some gs) :
    ∃ tops rows, topEntries (sortRecords rs) = some tops ∧
      optMapM (mkUrlGroup tops) (groupRows (sortRecords rs)) = some rows ∧
      gs = sortBy groupLe rows := by
  unfold clusterKeywords clusterFromSorted at h
  split at h
  · cases h
  · rename_i tops h1
    split at h
    · cases h
    · rename_i rows h2
      cases h
      exact ⟨tops, rows, h1, h2, rfl⟩

theorem mkUrlGroup_some {tops : List (String × String × Int)} {g : GroupRow}
    {row : UrlGroup} (h : mkUrlGroup tops g = some row) :
    ∃ tk, lookupTop tops g.url = some tk ∧
      row.url = g.url ∧
      row.topKeyword = tk.1 ∧
      row.topKeywordVolume = tk.2 ∧
      row.keywordCount = g.keywords.length ∧
      row.totalVolume = sumInts row.volumes ∧
      g.volumes = row.volumes.map some := by
  unfold mkUrlGroup at h
  split at h
  · rename_i vols tk h1 h2
    cases h
    exact ⟨tk, h2, rfl, rfl, rfl, rfl, rfl, optMapM_id_some h1⟩
  · cases h

/-- Any entry the dictionaries of lines 64-71 associate to `u` records
the keyword and (non-NaN) volume of the first `df_sorted` row with url
`u`. -/
theorem lookupTop_spec {sorted : List KeywordRecord} {us : List String}
    {tops : List (String × String × Int)}
    (h : topEntriesAux sorted us = some tops)
    {u : String} {tk : String × Int} (hl : lookupTop tops u = some tk) :
    ∃ r, (sorted.filter (fun x => x.url == u)).head? = some r ∧
      r.keyword = tk.1 ∧ r.volume = some tk.2 := by
  induction us generalizing tops with
  | nil =>
    unfold topEntriesAux at h
    cases h
    cases hl
  | cons v us' ih =>
    unfold topEntriesAux at h
    split at h
    · exact ih h hl
    · rename_i r hr
      split at h
      · cases h
      · rename_i w hw
        split at h
        · cases h
        · rename_i es hes
          cases h
          unfold lookupTop at hl
          by_cases hu : v = u
          · subst hu
            simp only [beq_self_eq_true, if_true] at hl
            cases hl
            exact ⟨r, hr, rfl, hw⟩
          · rw [if_neg (by simpa using hu)] at hl
            exact ih hes hl

/-- The group keys produced by `groupby(sort=True)` are strictly
increasing in the code-point lexicographic order. -/
theorem groupUrls_sorted_lt (sorted : List KeywordRecord) :
    (sortBy strLe (uniqueUrls sorted)).Pairwise
      (fun a b => strLt a b = true) := by
  have h := sortBy_pairwise strLe (fun a b => a ≠ b) strLe_total strLe_trans
    (uniqueUrls sorted) (nodup_uniqueUrls sorted)
  refine h.imp ?_
  intro a b hab
  rcases hab with ⟨hab, htie⟩
  cases hx : strLt a b
  · exfalso
    have hba : charListLt b.toList a.toList = false := by
      cases hy : charListLt b.toList a.toList
      · rfl
      · rw [show strLe a b = !(strLt b a) from rfl] at hab
        unfold strLt at hab
        rw [hy] at hab
        cases hab
    have hlist : a.toList = b.toList :=
      charListLt_eq_of_not (by simpa [strLt] using hx) hba
    have heq : a = b := string_toList_inj hlist
    have hne : a ≠ b := htie (by unfold strLe; rw [hx]; rfl)
    exact hne heq
  · rfl

theorem sortRecords_length (rs : List KeywordRecord) :
    (sortRecords rs).length = rs.length :=
  (sortBy_perm volBefore rs).length_eq

theorem mem_sortRecords {rs : List KeywordRecord} {r : KeywordRecord} :
    r ∈ sortRecords rs ↔ r ∈ rs :=
  mem_sortBy

/-! ## Claims -/

/-- C9: on the empty normalized record set (zero data rows),
`cluster_keywords` returns a defined empty result — the empty group
list — and no error: the `avg_position` lambda that divides by the group
size is never invoked because there are no groups. -/
theorem c9_empty_input : clusterKeywords [] = some [] := rfl

/-- C10: `cluster_keywords` leaves its input frame unchanged.  The only
operation applied to the caller's frame is `sort_values` without
`inplace` (so `inplace=False`, returning a sorted copy); every other step
builds fresh frames.  With the caller-visible state threaded explicitly,
the state after the call equals the state before it, and the result is
the same as the untracked function's. -/
theorem c10_input_unchanged (df : List KeywordRecord) :
    (clusterKeywordsTracked df).1 = df ∧
    (clusterKeywordsTracked df).2 = clusterKeywords df :=
  ⟨rfl, rfl⟩

/-- C5: whenever aggregation succeeds, the keyword counts of the output
groups sum to the number of input records — every record lands in
exactly one group, keyed by exact url string equality. -/
theorem c5_counts_partition (rs : List KeywordRecord) (gs : List UrlGroup)
    (h : clusterKeywords rs = some gs) :
    (gs.map (fun g => g.keywordCount)).sum = rs.length := by
  rcases clusterKeywords_eq_some h with ⟨tops, rows, h1, h2, rfl⟩
  rw [List.Perm.sum_eq (List.Perm.map _ (sortBy_perm groupLe rows))]
  have hsum := forall₂_map_sum (optMapM_some_forall₂ h2)
    (fun g => g.keywords.length) (fun row => row.keywordCount)
    (fun g row hr => by
      rcases mkUrlGroup_some hr with ⟨tk, _, _, _, _, hc, _, _⟩
      exact hc.symm)
  rw [← hsum]
  have hn : (sortBy strLe (uniqueUrls (sortRecords rs))).Nodup :=
    ((sortBy_perm strLe (uniqueUrls (sortRecords rs))).nodup_iff).mpr
      (nodup_uniqueUrls _)
  have hc : ∀ r ∈ sortRecords rs,
      r.url ∈ sortBy strLe (uniqueUrls (sortRecords rs)) :=
    fun r hr => mem_sortBy.mpr (url_mem_uniqueUrls hr)
  have hlen := length_eq_sum_filter_lengths (sortRecords rs) _ hn hc
  rw [sortRecords_length] at hlen
  rw [← hlen]
  simp [groupRows, List.map_map, Function.comp_def, List.length_map]

/-- C1 (amended): a record whose volume is null does not get its volume
excluded from the totals — it makes the whole aggregation fail:
`int(...)` raises `ValueError` on NaN (line 71 or line 92), the `except`
reports the error, and `cluster_keywords` returns `None`. -/
theorem c1_null_volume_aborts (rs : List KeywordRecord) (r : KeywordRecord)
    (hr : r ∈ rs) (hv : r.volume = none) : clusterKeywords rs = none := by
  unfold clusterKeywords clusterFromSorted
  have hrs : r ∈ sortRecords rs := mem_sortRecords.mpr hr
  have hu : r.url ∈ sortBy strLe (uniqueUrls (sortRecords rs)) :=
    mem_sortBy.mpr (url_mem_uniqueUrls hrs)
  have hnone : ∀ tops,
      optMapM (mkUrlGroup tops) (groupRows (sortRecords rs)) = none := by
    intro tops
    have hmem := List.mem_map_of_mem
      (fun u => { url := u
                  keywords := ((sortRecords rs).filter
                    (fun x => x.url == u)).map (fun x => x.keyword)
                  positions := ((sortRecords rs).filter
                    (fun x => x.url == u)).map (fun x => x.position)
                  volumes := ((sortRecords rs).filter
                    (fun x => x.url == u)).map (fun x => x.volume) : GroupRow })
      hu
    refine optMapM_eq_none hmem ?_
    have hfil : r ∈ (sortRecords rs).filter (fun x => x.url == r.url) :=
      List.mem_filter.mpr ⟨hrs, by simp⟩
    have hvmem : (none : Option Int) ∈ ((sortRecords rs).filter
        (fun x => x.url == r.url)).map (fun x => x.volume) := by
      rw [← hv]
      exact List.mem_map_of_mem _ hfil
    have hvols : optMapM id (((sortRecords rs).filter
        (fun x => x.url == r.url)).map (fun x => x.volume)) = none :=
      optMapM_eq_none hvmem rfl
    cases hlk : lookupTop tops r.url <;> simp [mkUrlGroup, hvols, hlk]
  cases h1 : topEntries (sortRecords rs) with
  | none => simp
  | some tops => simp [hnone tops]

theorem foldl_max_of_le (v : Int) (vs : List Int) (h : ∀ x ∈ vs, x ≤ v) :
    vs.foldl max v = v := by
  induction vs generalizing v with
  | nil => rfl
  | cons b bs ih =>
    rw [List.foldl_cons, max_eq_left (h b (List.mem_cons_self _ _))]
    exact ih v (fun x hx => h x (List.mem_cons_of_mem _ hx))

/-- C4: in every emitted group, `total_volume` equals the sum of the
group's volume list, and `top_keyword_volume` is both the head of the
group's volume-descending list and its maximum. -/
theorem c4_group_metrics (rs : List KeywordRecord) (gs : List UrlGroup)
    (h : clusterKeywords rs = some gs) :
    ∀ g ∈ gs, g.totalVolume = sumInts g.volumes ∧
      g.volumes.head? = some g.topKeywordVolume ∧
      maxInt g.volumes = some g.topKeywordVolume := by
  rcases clusterKeywords_eq_some h with ⟨tops, rows, h1, h2, rfl⟩
  intro g hg
  have hgrows : g ∈ rows := mem_sortBy.mp hg
  rcases forall₂_mem_right (optMapM_some_forall₂ h2) hgrows with ⟨gr, hgr, hmk⟩
  rcases mkUrlGroup_some hmk with ⟨tk, hlk, hurl, htk1, htk2, hcount, htot, hvols⟩
  rcases List.mem_map.mp hgr with ⟨u, hu, hgru⟩
  subst hgru
  dsimp only at hlk hvols
  rcases lookupTop_spec h1 hlk with ⟨r, hr, hk1, hk2⟩
  have hpw : ((sortRecords rs).filter (fun x => x.url == u)).Pairwise
      (fun a b => volBefore a b = true) :=
    (sortRecords_pairwise rs).sublist (List.filter_sublist _)
  cases hfl : (sortRecords rs).filter (fun x => x.url == u) with
  | nil =>
    rw [hfl] at hr
    cases hr
  | cons r1 tail =>
    rw [hfl, List.head?_cons] at hr
    injection hr with hreq
    subst hreq
    rw [hfl] at hpw
    have hhead : ∀ x ∈ tail, volBefore r1 x = true :=
      (List.pairwise_cons.mp hpw).1
    rw [hfl, List.map_cons] at hvols
    cases hgv : g.volumes with
    | nil =>
      rw [hgv, List.map_nil] at hvols
      cases hvols
    | cons v vs =>
      rw [hgv, List.map_cons] at hvols
      have hv0 : r1.volume = some v := (List.cons_eq_cons.mp hvols).1
      have hvs : tail.map (fun x => x.volume) = vs.map some :=
        (List.cons_eq_cons.mp hvols).2
      have hvtk : v = tk.2 := by
        rw [hk2] at hv0
        exact (Option.some_inj.mp hv0).symm
      have hle : ∀ x ∈ vs, x ≤ v := by
        intro x hx
        have hxm : some x ∈ tail.map (fun y => y.volume) := by
          rw [hvs]
          exact List.mem_map_of_mem _ hx
        rcases List.mem_map.mp hxm with ⟨r', hr', hrv⟩
        have hvb := hhead r' hr'
        unfold volBefore at hvb
        rw [hk2, hrv] at hvb
        have hxle : x ≤ tk.2 := by simpa using hvb
        rw [hvtk]
        exact hxle
      have hh : g.volumes.head? = some g.topKeywordVolume := by
        rw [hgv, List.head?_cons, htk2, hvtk]
      have hm : maxInt g.volumes = some g.topKeywordVolume := by
        rw [hgv]
        show some (vs.foldl max v) = some g.topKeywordVolume
        rw [foldl_max_of_le v vs hle, htk2, hvtk]
      refine ⟨?_, ?_, ?_⟩
      · rw [← hgv]
        exact htot
      · rw [← hgv]
        exact hh
      · rw [← hgv]
        exact hm

/-- C2 (amended): the emitted groups are non-decreasing in
`top_keyword_volume`.  The original tie-break clause is refuted by
`c2_counterexample`: ties do not keep first-encounter order, because
`groupby(sort=True)` has already replaced that order by sorted keys.  No
universal tie order is claimed here: the final sort at line 108 is
`sort_values` with the default `kind="quicksort"`, which guarantees no
stability, so the relative order of equal-top-volume groups is
implementation-defined.  The non-decreasing conclusion holds under any
correct sort, stable or not, so it does not depend on the stable
insertion sort this embedding uses. -/
theorem c2_sorted_nondecreasing (rs : List KeywordRecord) (gs : List UrlGroup)
    (h : clusterKeywords rs = some gs) :
    gs.Pairwise (fun a b => a.topKeywordVolume ≤ b.topKeywordVolume) := by
  rcases clusterKeywords_eq_some h with ⟨tops, rows, h1, h2, rfl⟩
  have hs := sortBy_sorted groupLe groupLe_total groupLe_trans rows
  exact hs.imp (fun hab => by simpa [groupLe] using hab)

theorem dropWhile_head_not (p : α → Bool) (l : List α) {a : α}
    (h : (l.dropWhile p).head? = some a) : p a = false := by
  induction l with
  | nil => cases h
  | cons b bs ih =>
    rw [List.dropWhile_cons] at h
    cases hpb : p b
    · rw [hpb] at h
      simp only [Bool.false_eq_true, if_false, List.head?_cons] at h
      injection h with ha
      rw [← ha]
      exact hpb
    · rw [hpb] at h
      simp only [if_true] at h
      exact ih h

/-- C6 (amended): line 44, `.str.strip('"')`, removes every leading and
every trailing quote character from a cell — not exactly one layer.  The
original value is the result wrapped in some number of quote characters
on each side, and the result itself neither starts nor ends with a quote
character. -/
theorem c6_strip_all_boundary_quotes (s : String) :
    (∃ pre post, (∀ c ∈ pre, c = '"') ∧ (∀ c ∈ post, c = '"') ∧
        s.toList = pre ++ (stripQuotes s).toList ++ post)
    ∧ (∀ c, (stripQuotes s).toList.head? = some c → c ≠ '"')
    ∧ (∀ c, (stripQuotes s).toList.getLast? = some c → c ≠ '"') := by
  have hmid : (stripQuotes s).toList
      = ((s.toList.dropWhile (fun c => c == '"')).reverse.dropWhile
          (fun c => c == '"')).reverse := rfl
  refine ⟨?_, ?_, ?_⟩
  · refine ⟨s.toList.takeWhile (fun c => c == '"'),
      ((s.toList.dropWhile (fun c => c == '"')).reverse.takeWhile
        (fun c => c == '"')).reverse, ?_, ?_, ?_⟩
    · intro c hc
      have := List.mem_takeWhile_imp hc
      simpa using this
    · intro c hc
      have := List.mem_takeWhile_imp (List.mem_reverse.mp hc)
      simpa using this
    · rw [hmid]
      conv_lhs => rw [← List.takeWhile_append_dropWhile
        (p := fun c => c == '"') (l := s.toList)]
      rw [List.append_assoc]
      congr 1
      conv_lhs => rw [← List.reverse_reverse
        (s.toList.dropWhile (fun c => c == '"'))]
      conv_lhs => rw [← List.takeWhile_append_dropWhile
        (p := fun c => c == '"')
        (l := (s.toList.dropWhile (fun c => c == '"')).reverse)]
      rw [List.reverse_append]
  · intro c hc
    rw [hmid] at hc
    have hsub : ((s.toList.dropWhile (fun x => x == '"')).reverse.dropWhile
        (fun x => x == '"')).reverse.head?
        = (s.toList.dropWhile (fun x => x == '"')).head? ∨
        ((s.toList.dropWhile (fun x => x == '"')).reverse.dropWhile
        (fun x => x == '"')).reverse = [] := by
      cases hm : ((s.toList.dropWhile (fun x => x == '"')).reverse.dropWhile
          (fun x => x == '"')).reverse with
      | nil => exact Or.inr rfl
      | cons c0 cs =>
        left
        have hdec : s.toList.dropWhile (fun x => x == '"')
            = (c0 :: cs)
              ++ ((s.toList.dropWhile (fun x => x == '"')).reverse.takeWhile
                  (fun x => x == '"')).reverse := by
          rw [← hm]
          conv_lhs => rw [← List.reverse_reverse
            (s.toList.dropWhile (fun x => x == '"'))]
          conv_lhs => rw [← List.takeWhile_append_dropWhile
            (p := fun x => x == '"')
            (l := (s.toList.dropWhile (fun x => x == '"')).reverse)]
          rw [List.reverse_append]
        rw [hdec]
        rfl
    rcases hsub with hsub | hsub
    · rw [hsub] at hc
      have := dropWhile_head_not _ _ hc
      simpa using this
    · rw [hsub] at hc
      cases hc
  · intro c hc
    rw [hmid, List.getLast?_reverse] at hc
    have := dropWhile_head_not _ _ hc
    simpa using this

/-- C6 counterexample: a cell carrying two quote layers, `""x""`.  The
claim predicts the inner layer survives (value `"x"` with quotes); the
code strips every boundary quote and produces plain `x`, end to end
through the normalizer. -/
theorem c6_counterexample :
    stripQuotes (String.mk ['"', '"', 'x', '"', '"']) = "x"
    ∧ stripQuotes (String.mk ['"', '"', 'x', '"', '"'])
        ≠ String.mk ['"', 'x', '"']
    ∧ (processFile RC6 [] 0).result = Except.ok [recC6]
    ∧ recC6.keyword = "x" := by
  exact ⟨rfl, by decide, rfl, rfl⟩

/-- C7: the normalizer attempts at most the two supported encodings, in
the fixed order utf-16 then utf-8; the result never depends on where the
stream position ended up after a failed first read (the `seek(0)` at
line 17 rewinds before the second attempt, so the utf-8 decoder sees the
whole content); and when both decode attempts fail the run ends with
`encodingError` and no records. -/
theorem c7_encoding_retry (R : CsvReader) (c : List Nat) (fp : Nat) :
    ((processFile R c fp).attempts = [Encoding.utf16] ∨
      (processFile R c fp).attempts = [Encoding.utf16, Encoding.utf8])
    ∧ processFile R c fp = processFile R c 0
    ∧ (R.dec16 c = DecodeResult.unicodeErr →
        (processFile R c fp).attempts = [Encoding.utf16, Encoding.utf8]
      ∧ (∀ t, R.dec8 c = DecodeResult.ok t →
          (processFile R c fp).result = normalizeTable t)
      ∧ (R.dec8 c = DecodeResult.unicodeErr →
          (processFile R c fp).result
            = Except.error LoadError.encodingError)) := by
  cases h16 : R.dec16 c with
  | ok t =>
    refine ⟨Or.inl ?_, ?_, ?_⟩
    · simp [processFile, readCsvAt, List.drop_zero, h16]
    · simp [processFile, readCsvAt, List.drop_zero, h16]
    · intro hcon
      cases hcon
  | unicodeErr =>
    cases h8 : R.dec8 c with
    | ok t =>
      refine ⟨Or.inr ?_, ?_, fun _ => ⟨?_, ?_, ?_⟩⟩
      · simp [processFile, readCsvAt, List.drop_zero, h16, h8]
      · simp [processFile, readCsvAt, List.drop_zero, h16, h8]
      · simp [processFile, readCsvAt, List.drop_zero, h16, h8]
      · intro t' ht'
        injection ht' with hteq
        subst hteq
        simp [processFile, readCsvAt, List.drop_zero, h16, h8]
      · intro hcon
        cases hcon
    | unicodeErr =>
      refine ⟨Or.inr ?_, ?_, fun _ => ⟨?_, ?_, ?_⟩⟩
      · simp [processFile, readCsvAt, List.drop_zero, h16, h8]
      · simp [processFile, readCsvAt, List.drop_zero, h16, h8]
      · simp [processFile, readCsvAt, List.drop_zero, h16, h8]
      · intro t' ht'
        cases ht'
      · intro _
        simp [processFile, readCsvAt, List.drop_zero, h16, h8]
    | otherErr =>
      refine ⟨Or.inr ?_, ?_, fun _ => ⟨?_, ?_, ?_⟩⟩
      · simp [processFile, readCsvAt, List.drop_zero, h16, h8]
      · simp [processFile, readCsvAt, List.drop_zero, h16, h8]
      · simp [processFile, readCsvAt, List.drop_zero, h16, h8]
      · intro t' ht'
        cases ht'
      · intro hcon
        cases hcon
  | otherErr =>
    refine ⟨Or.inl ?_, ?_, ?_⟩
    · simp [processFile, readCsvAt, List.drop_zero, h16]
    · simp [processFile, readCsvAt, List.drop_zero, h16]
    · intro hcon
      cases hcon

/-- C7 witness: with both decoders failing on a concrete stream, both
encodings are attempted in order and the run ends with `encodingError`
and no records. -/
theorem c7_witness :
    (processFile RC7 [0] 5).result = Except.error LoadError.encodingError
    ∧ (processFile RC7 [0] 5).attempts = [Encoding.utf16, Encoding.utf8] :=
  ⟨((c7_encoding_retry RC7 [0] 5).2.2 rfl).2.2 rfl,
    ((c7_encoding_retry RC7 [0] 5).2.2 rfl).1⟩

/-- C8: when the input parses but a required quoted column is missing
from the header, `process_file` fails with the format error that carries
the columns actually found (`df.columns.tolist()`, line 55), and the
pipeline never reaches aggregation (`if df is not None`, line 197). -/
theorem c8_missing_column (R : CsvReader) (c : List Nat) (fp : Nat)
    (t : RawTable) (hdec : R.dec16 c = DecodeResult.ok t)
    (hmiss : ∃ col ∈ requiredCols, col ∉ t.header) :
    (processFile R c fp).result
      = Except.error (LoadError.formatError t.header)
    ∧ runPipeline R c fp = none := by
  have hnot : ¬ ∀ col ∈ requiredCols, col ∈ t.header := by
    rcases hmiss with ⟨col, hm, hn⟩
    exact fun hall => hn (hall col hm)
  have hres : (processFile R c fp).result
      = Except.error (LoadError.formatError t.header) := by
    simp [processFile, readCsvAt, List.drop_zero, hdec, normalizeTable, hnot]
  refine ⟨hres, ?_⟩
  unfold runPipeline
  rw [hres]

/-- C8 witness: a parsed table whose header misses `"Current URL"` makes
the normalizer fail with a format error listing the two columns that
were found, and aggregation never runs. -/
theorem c8_missing_column_witness :
    (processFile RC8 [] 0).result
      = Except.error (LoadError.formatError ["\"Keyword\"", "\"Volume\""])
    ∧ runPipeline RC8 [] 0 = none :=
  c8_missing_column RC8 [] 0 tableC8 rfl
    ⟨"\"Current URL\"", by decide, by decide⟩

/-- C1 counterexample: on a record set holding one parseable volume (100)
and one NaN volume under the same url, the claim predicts a group with
`keywordCount = 2` and `totalVolume = 100`; the code instead fails
(`int(nan)` raises) and returns `None`, so no group exists at all. -/
theorem c1_counterexample :
    clusterKeywords exC1 = none
    ∧ ¬ ∃ gs, clusterKeywords exC1 = some gs
        ∧ ∃ g ∈ gs, g.keywordCount = 2 ∧ g.totalVolume = 100 := by
  refine ⟨rfl, ?_⟩
  rintro ⟨gs, hgs, -⟩
  rw [show clusterKeywords exC1 = none from rfl] at hgs
  cases hgs

/-- C1 witness (for the amended claim): the concrete record set `exC1`
holds the NaN-volume record `recNaVol`, and aggregation returns `none`
on it. -/
theorem c1_null_volume_aborts_witness :
    recNaVol ∈ exC1 ∧ recNaVol.volume = none
    ∧ clusterKeywords exC1 = none :=
  ⟨by exact List.mem_cons_of_mem _ (List.mem_cons_self _ _), rfl,
    c1_null_volume_aborts exC1 recNaVol
      (by exact List.mem_cons_of_mem _ (List.mem_cons_self _ _)) rfl⟩

/-- C2 counterexample: in `rsC2` the urls are first encountered during
partitioning in the order `/b`, `/a` (that is the `df_sorted` order),
and both groups tie at top volume 100; the claim therefore predicts the
output order `/b`, `/a`, but the code emits `/a`, `/b` because `groupby`
sorts its keys and the final sort keeps that order for ties. -/
theorem c2_counterexample :
    (clusterKeywords rsC2).map (fun gs => gs.map (fun g => g.url))
      = some ["/a", "/b"]
    ∧ (clusterKeywords rsC2).map
        (fun gs => gs.map (fun g => g.topKeywordVolume))
      = some [100, 100]
    ∧ uniqueUrls (sortRecords rsC2) = ["/b", "/a"] :=
  ⟨rfl, rfl, rfl⟩

/-- C2 witness (for the amended claim): the concrete output for `rsC2`
is non-decreasing in top keyword volume. -/
theorem c2_sorted_nondecreasing_witness :
    clusterKeywords rsC2 = some gsC2
    ∧ gsC2.Pairwise (fun a b => a.topKeywordVolume ≤ b.topKeywordVolume) :=
  ⟨rfl, c2_sorted_nondecreasing rsC2 gsC2 rfl⟩

/-- C4 witness: on the Scenario A records, the `/a` group of the
concrete output has `totalVolume` the sum and `topKeywordVolume` the
head and maximum of its volume list. -/
theorem c4_group_metrics_witness :
    clusterKeywords exA = some gsA
    ∧ (gA.totalVolume = sumInts gA.volumes
      ∧ gA.volumes.head? = some gA.topKeywordVolume
      ∧ maxInt gA.volumes = some gA.topKeywordVolume) :=
  ⟨rfl, c4_group_metrics exA gsA rfl gA (by exact List.mem_cons_self _ _)⟩

/-- C5 witness: on the Scenario A records, the keyword counts of the
concrete output (2 for `/a`, 1 for `/b`) sum to the three input
records. -/
theorem c5_counts_partition_witness :
    clusterKeywords exA = some gsA
    ∧ (gsA.map (fun g => g.keywordCount)).sum = exA.length :=
  ⟨rfl, c5_counts_partition exA gsA rfl⟩

end AhrefApp
